import Mathlib

/-!
Verification of the call-instrumentation and replay subsystem of the
`0x02-redis_basic` package (files `exercise.py` and `web.py`), together
with the plain store/retrieve operations of the `Cache` facade.

The Redis key-value store is embedded as explicit state passing: a state
holds the scalar keyspace (byte-string values, here modelled as decoded
text) and the list keyspace.  Python exceptions are modelled with
`Except`; since the store is an external service, state changes made
before an exception survive it, so every operation returns its final
state next to its `Except` result.

Python `str` on integers and `int` on byte strings, and the integer
parsing performed by the Redis `INCR` command, are modelled by an
executable decimal rendering/parsing pair defined below, with the
round-trip proved.
-/

namespace RedisBasic

/-- Decimal digit character: the character of code `48 + d` (models the
digits produced by Python `str` and by Redis integer rendering). -/
def digitChar (d : Nat) : Char := Char.ofNat (48 + d)

/-- Decimal digits of a natural number, most significant first. -/
def natDigits (n : Nat) : List Char :=
  if n < 10 then [digitChar n]
  else natDigits (n / 10) ++ [digitChar (n % 10)]
termination_by n
decreasing_by exact Nat.div_lt_self (by omega) (by omega)

/-- Decimal rendering of a natural number. -/
def natRepr (n : Nat) : String := ⟨natDigits n⟩

/-- Decimal rendering of an integer (models Python `str` on `int`). -/
def intRepr (i : Int) : String :=
  if i < 0 then ⟨'-' :: natDigits i.natAbs⟩ else ⟨natDigits i.natAbs⟩

/-- Numeric value of a decimal digit character, `none` on anything else. -/
def digitVal? (c : Char) : Option Nat :=
  if 48 ≤ c.toNat ∧ c.toNat ≤ 57 then some (c.toNat - 48) else none

/-- Left-to-right accumulator pass over decimal digit characters. -/
def parseDigitsAux : Nat → List Char → Option Nat
  | acc, [] => some acc
  | acc, c :: cs =>
    match digitVal? c with
    | some d => parseDigitsAux (10 * acc + d) cs
    | none => none

/-- Parse a nonempty all-digit character list as a natural number. -/
def parseNat (l : List Char) : Option Nat :=
  if l = [] then none else parseDigitsAux 0 l

/-- Integer parsing as performed by Redis `INCR` on the stored value:
an optional leading minus sign followed by decimal digits, no
whitespace tolerated. -/
def redisParseInt (l : List Char) : Option Int :=
  match l with
  | [] => none
  | c :: cs =>
    if c = '-' then (parseNat cs).map (fun m => -(m : Int))
    else (parseNat l).map (fun m => (m : Int))

/-- Whitespace characters stripped by Python `int` before parsing
(space, tab, line feed, carriage return, vertical tab, form feed,
identified by character code). -/
def isPySpace (c : Char) : Bool :=
  c.toNat = 32 || c.toNat = 9 || c.toNat = 10 ||
    c.toNat = 13 || c.toNat = 11 || c.toNat = 12

/-- Strip leading and trailing whitespace (Python `int` tolerates it). -/
def pyStrip (l : List Char) : List Char :=
  ((l.dropWhile isPySpace).reverse.dropWhile isPySpace).reverse

/-- Parse an optionally signed decimal character list (Python `int`
after stripping: optional `-` or `+` sign, then digits). -/
def pyIntParseChars (l : List Char) : Option Int :=
  match l with
  | [] => none
  | c :: cs =>
    if c = '-' then (parseNat cs).map (fun m => -(m : Int))
    else if c = '+' then (parseNat cs).map (fun m => (m : Int))
    else (parseNat l).map (fun m => (m : Int))

/-- Model of Python `int` applied to a byte string (underscore grouping
of Python numeric literals is not modelled). -/
def pyIntParse (s : String) : Option Int := pyIntParseChars (pyStrip s.data)

/-- Powers of ten matching the recursion of `natDigits`:
`pow10 n = 10 ^ (number of decimal digits of n)`. -/
def pow10 (n : Nat) : Nat :=
  if n < 10 then 10 else pow10 (n / 10) * 10
termination_by n
decreasing_by exact Nat.div_lt_self (by omega) (by omega)

theorem digitVal?_digitChar {d : Nat} (hd : d < 10) :
    digitVal? (digitChar d) = some d := by
  interval_cases d <;> decide

theorem parseDigitsAux_digit {d : Nat} (hd : d < 10) (acc : Nat)
    (rest : List Char) :
    parseDigitsAux acc (digitChar d :: rest) =
      parseDigitsAux (10 * acc + d) rest := by
  simp [parseDigitsAux, digitVal?_digitChar hd]

theorem parseDigitsAux_natDigits (n : Nat) : ∀ (acc : Nat) (rest : List Char),
    parseDigitsAux acc (natDigits n ++ rest) =
      parseDigitsAux (acc * pow10 n + n) rest := by
  induction n using Nat.strong_induction_on with
  | _ n ih =>
    intro acc rest
    rw [natDigits.eq_def, pow10.eq_def]
    by_cases h : n < 10
    · simp only [if_pos h, List.cons_append, List.nil_append]
      rw [parseDigitsAux_digit h]
      ring_nf
    · simp only [if_neg h, List.append_assoc, List.cons_append, List.nil_append]
      rw [ih (n / 10) (Nat.div_lt_self (by omega) (by omega))]
      rw [parseDigitsAux_digit (Nat.mod_lt _ (by omega))]
      have hdm : 10 * (n / 10) + n % 10 = n := by omega
      congr 1
      calc 10 * (acc * pow10 (n / 10) + n / 10) + n % 10
          = acc * (pow10 (n / 10) * 10) + (10 * (n / 10) + n % 10) := by ring
        _ = acc * (pow10 (n / 10) * 10) + n := by rw [hdm]

theorem natDigits_ne_nil (n : Nat) : natDigits n ≠ [] := by
  rw [natDigits.eq_def]
  split <;> simp

theorem parseNat_natDigits (n : Nat) : parseNat (natDigits n) = some n := by
  have h := parseDigitsAux_natDigits n 0 []
  simp only [List.append_nil, Nat.zero_mul, Nat.zero_add] at h
  rw [parseNat, if_neg (natDigits_ne_nil n), h]
  rfl

theorem natDigits_mem_range {n : Nat} {c : Char} (hc : c ∈ natDigits n) :
    48 ≤ c.toNat ∧ c.toNat ≤ 57 := by
  induction n using Nat.strong_induction_on with
  | _ n ih =>
    rw [natDigits.eq_def] at hc
    by_cases h : n < 10
    · simp only [if_pos h, List.mem_singleton] at hc
      subst hc
      interval_cases n <;> decide
    · simp only [if_neg h, List.mem_append, List.mem_singleton] at hc
      rcases hc with hc | hc
      · exact ih (n / 10) (Nat.div_lt_self (by omega) (by omega)) hc
      · subst hc
        have : n % 10 < 10 := Nat.mod_lt _ (by omega)
        interval_cases hm : (n % 10) <;> decide

theorem natDigits_head_not_minus {n : Nat} {c : Char} {cs : List Char}
    (h : natDigits n = c :: cs) : ¬ c = '-' := by
  intro hc
  have hmem : c ∈ natDigits n := by rw [h]; exact List.mem_cons_self _ _
  have := natDigits_mem_range hmem
  subst hc
  exact absurd this (by decide)

theorem redisParseInt_natDigits (n : Nat) :
    redisParseInt (natDigits n) = some (n : Int) := by
  rcases hl : natDigits n with _ | ⟨c, cs⟩
  · exact absurd hl (natDigits_ne_nil n)
  · rw [redisParseInt, if_neg (natDigits_head_not_minus hl), ← hl,
      parseNat_natDigits]
    rfl

theorem redisParseInt_intRepr (i : Int) :
    redisParseInt (intRepr i).data = some i := by
  rw [intRepr]
  by_cases h : i < 0
  · rw [if_pos h]
    show redisParseInt ('-' :: natDigits i.natAbs) = some i
    rw [redisParseInt, if_pos rfl, parseNat_natDigits]
    show some (-(i.natAbs : Int)) = some i
    congr 1
    omega
  · rw [if_neg h]
    show redisParseInt (natDigits i.natAbs) = some i
    rw [redisParseInt_natDigits]
    congr 1
    omega

/-- Python exceptions surfaced by the modelled code. -/
inductive PyErr where
  | valueError : String → PyErr
  | redisError : String → PyErr
deriving DecidableEq

/-- State of the Redis server: the scalar keyspace (byte-string values
modelled as decoded text) and the list keyspace.  Keys absent from
`lists` are modelled as the empty list (Redis treats a missing list key
as empty). -/
structure Store where
  kv : String → Option String
  lists : String → List String

/-- The empty keyspace. -/
def Store.empty : Store := ⟨fun _ => none, fun _ => []⟩

/-- Redis `FLUSHDB`: delete every key. -/
def Store.flushdb (_st : Store) : Store := Store.empty

/-- Redis `SET key value`: unconditional overwrite. -/
def Store.set (st : Store) (k v : String) : Store :=
  { st with kv := fun x => if x = k then some v else st.kv x }

/-- Redis `GET key`: read the current scalar value, absent as `none`. -/
def Store.get (st : Store) (k : String) : Option String := st.kv k

/-- Redis `RPUSH key entry`: atomic append, preserving order. -/
def Store.rpush (st : Store) (k v : String) : Store :=
  { st with lists := fun x => if x = k then st.lists k ++ [v] else st.lists x }

/-- Redis `LRANGE key start stop`: inclusive range read with negative
indices counting from the end (`stop = -1` means "to the end"). -/
def Store.lrange (st : Store) (k : String) (start stop : Int) : List String :=
  let l := st.lists k
  let n : Int := l.length
  let s : Int := if start < 0 then max (n + start) 0 else start
  let e : Int := if stop < 0 then n + stop else min stop (n - 1)
  if s ≤ e then (l.drop s.toNat).take (e - s + 1).toNat else []

/-- Redis `INCR key`: parse the stored value as an integer (absent
counts as 0), add one, store the result back, return the new value;
raises when the stored value is not an integer.  The 64-bit range limit
of Redis integers is not modelled. -/
def Store.incr (st : Store) (k : String) : Store × Except PyErr Int :=
  match st.kv k with
  | none => (st.set k (intRepr 1), .ok 1)
  | some s =>
    match redisParseInt s.data with
    | none => (st, .error (.redisError "value is not an integer or out of range"))
    | some n => (st.set k (intRepr (n + 1)), .ok (n + 1))

/-- Python scalar values accepted by `Cache.store`
(`Union[str, bytes, int, float]`).  Byte strings carry their decoded
text; Python `repr` on floats is abstracted by `floatRepr` below. -/
inductive PyVal where
  | pystr : String → PyVal
  | pybytes : String → PyVal
  | pyint : Int → PyVal
  | pyfloat : Float → PyVal

/-- Display rendering of a float; models Python `repr` on floats, which
is used only for display, never parsed back. -/
def floatRepr (f : Float) : String := toString f

/-- Client-side serialization performed by redis-py before `SET`:
text is encoded, byte strings pass through, integers via `str`,
floats via `repr`. -/
def encodeVal : PyVal → String
  | .pystr s => s
  | .pybytes b => b
  | .pyint n => intRepr n
  | .pyfloat f => floatRepr f

/-- Python `repr` of a stored scalar, used by `str(args)` when the
wrapper serializes the argument tuple (display fidelity only; quote
escaping inside text is not modelled). -/
def pyRepr : PyVal → String
  | .pystr s => "\x27" ++ s ++ "\x27"
  | .pybytes b => "b\x27" ++ b ++ "\x27"
  | .pyint n => intRepr n
  | .pyfloat f => floatRepr f

/-- Python `str(args)` for the one-positional-argument tuple `(data,)`. -/
def strArgs (data : PyVal) : String := "(" ++ pyRepr data ++ ",)"

/-- A method of an object holding the Redis handle: state passing over
`Store`, with Python exceptions as `Except`.  Because the store is an
external service, the state component survives an exception. -/
def Method (α β : Type) := α → Store → Store × Except PyErr β

/-- Key written by `count_calls` (line 20 of `exercise.py`):
the qualified name of the wrapped method. -/
def countCallsKey (qn : String) : String := qn

/-- Inputs key written by `call_history` (line 33 of `exercise.py`). -/
def callHistoryInputsKey (qn : String) : String := qn ++ ":inputs"

/-- Outputs key written by `call_history` (line 34 of `exercise.py`). -/
def callHistoryOutputsKey (qn : String) : String := qn ++ ":outputs"

/-- Decorator `count_calls`: increment the counter stored under the
qualified name of the method, then delegate.  The qualified name, read
in Python through `method.__qualname__`, is an explicit parameter. -/
def count_calls {α β : Type} (qn : String) (m : Method α β) : Method α β :=
  fun a st =>
    match st.incr (countCallsKey qn) with
    | (st1, .error e) => (st1, .error e)
    | (st1, .ok _) => m a st1

/-- Decorator `call_history`: append `str(args)` to the inputs list,
delegate, append `str(output)` to the outputs list, return the output
unchanged.  `serIn` and `serOut` are the `str` renderings of the
argument tuple and of the result. -/
def call_history {α β : Type} (qn : String) (serIn : α → String)
    (serOut : β → String) (m : Method α β) : Method α β :=
  fun a st =>
    let st1 := st.rpush (callHistoryInputsKey qn) (serIn a)
    match m a st1 with
    | (st2, .error e) => (st2, .error e)
    | (st2, .ok output) =>
      (st2.rpush (callHistoryOutputsKey qn) (serOut output), .ok output)

/-- Counter key read by `replay` (line 50 of `exercise.py`). -/
def replayCounterKey (qn : String) : String := qn

/-- Inputs key read by `replay` (line 54 of `exercise.py`). -/
def replayInputsKey (qn : String) : String := qn ++ ":inputs"

/-- Outputs key read by `replay` (line 55 of `exercise.py`). -/
def replayOutputsKey (qn : String) : String := qn ++ ":outputs"

/-- Function `replay`: read the counter (`int(get(name) or 0)`, so an
absent counter — and an empty byte string, which is falsy — reads as
0), read both history lists in full, and render the header line plus
one line per positionally paired entry (`zip` stops at the shorter
list).  The rendered lines are returned instead of printed; the store
is read, never written, and is returned alongside. -/
def replay (st : Store) (qn : String) : Store × Except PyErr (String × List String) :=
  let countE : Except PyErr Int :=
    match st.get (replayCounterKey qn) with
    | none => .ok 0
    | some s =>
      if s = "" then .ok 0
      else
        match pyIntParse s with
        | some n => .ok n
        | none => .error (.valueError "invalid literal for int with base 10")
  match countE with
  | .error e => (st, .error e)
  | .ok call_count =>
    let header := qn ++ " was called " ++ intRepr call_count ++ " times:"
    let inputs := st.lrange (replayInputsKey qn) 0 (-1)
    let outputs := st.lrange (replayOutputsKey qn) 0 (-1)
    let lines := (List.zip inputs outputs).map
      (fun p => qn ++ "(*" ++ p.1 ++ ") -> " ++ p.2)
    (st, .ok (header, lines))

/-- Qualified name of the instrumented method `Cache.store`. -/
def storeQualname : String := "Cache.store"

/-- Constructor of `Cache`: connect to Redis and flush the database. -/
def Cache.init (st : Store) : Store := st.flushdb

/-- Body of `Cache.store` (the unwrapped method): generate a fresh UUID
key, write the serialized value under it, return the key.  The random
UUID string is an explicit oracle parameter `u`. -/
def Cache.storeBody (u : String) : Method PyVal String :=
  fun data st => (st.set u (encodeVal data), .ok u)

/-- The instrumented `Cache.store`: `@count_calls` over `@call_history`
over the body.  The output serialization is `str` on the returned key,
which is the identity on text. -/
def Cache.store (u : String) : Method PyVal String :=
  count_calls storeQualname
    (call_history storeQualname strArgs id (Cache.storeBody u))

/-- Method `Cache.get`: read the raw value; absent gives `None`;
otherwise apply the optional conversion function (which may raise) and
return its result, or the raw bytes when no converter is given. -/
def Cache.get (st : Store) (key : String)
    (fn : Option (String → Except PyErr PyVal)) :
    Store × Except PyErr (Option PyVal) :=
  match st.get key with
  | none => (st, .ok none)
  | some data =>
    match fn with
    | none => (st, .ok (some (.pybytes data)))
    | some f =>
      match f data with
      | .error e => (st, .error e)
      | .ok v => (st, .ok (some v))

/-- Converter used by `Cache.get_str`: decode the bytes as UTF-8 text
(byte payloads are modelled as decoded text, so decoding is the
identity; undecodable byte sequences are not representable here). -/
def decodeUtf8 (d : String) : Except PyErr PyVal := .ok (.pystr d)

/-- Method `Cache.get_str`: retrieve with the UTF-8 decoding converter. -/
def Cache.get_str (st : Store) (key : String) :
    Store × Except PyErr (Option PyVal) :=
  Cache.get st key (some decodeUtf8)

/-- Converter used by `Cache.get_int`: Python `int` on the raw bytes,
raising `ValueError` when they do not parse. -/
def pyIntFn (d : String) : Except PyErr PyVal :=
  match pyIntParse d with
  | some n => .ok (.pyint n)
  | none => .error (.valueError "invalid literal for int with base 10")

/-- Method `Cache.get_int`: retrieve with the integer converter. -/
def Cache.get_int (st : Store) (key : String) :
    Store × Except PyErr (Option PyVal) :=
  Cache.get st key (some pyIntFn)

/-- Observation function for theorem statements: the integer value of a
stored counter, an absent or unparsable value reading as 0. -/
def counterVal (st : Store) (k : String) : Int :=
  match st.kv k with
  | none => 0
  | some s => (redisParseInt s.data).getD 0

/-- The state after the two pre-effects of the doubly wrapped method:
first the `count_calls` increment, then the `call_history` append of
the serialized arguments. -/
def afterPre {α : Type} (qn : String) (serIn : α → String) (a : α)
    (st : Store) : Store :=
  ((st.incr (countCallsKey qn)).1).rpush (callHistoryInputsKey qn) (serIn a)

/-- A store state whose counter at key `k` is readable by Redis `INCR`:
absent, or parsing as an integer.  Every state reachable by the
instrumented methods alone satisfies this. -/
def counterOK (st : Store) (k : String) : Prop :=
  ∀ s, st.kv k = some s → (redisParseInt s.data).isSome

/-- A store state whose counter at key `k` is readable by `replay`:
absent, empty (falsy, read as 0), or parsing under Python `int`. -/
def replayCounterOK (st : Store) (k : String) : Prop :=
  ∀ s, st.kv k = some s → s = "" ∨ (pyIntParse s).isSome

/-- Iterate the instrumented `Cache.store` over a list of
(UUID oracle, data) pairs, threading the store state. -/
def runStores : List (String × PyVal) → Store → Store
  | [], st => st
  | (u, d) :: rest, st => runStores rest (Cache.store u d st).1

end RedisBasic

namespace RedisWeb

open RedisBasic

/-- State of the Redis server used by `web.py`: the scalar keyspace
plus the recorded expiration (seconds) of keys written by `SETEX`. -/
structure WebStore where
  base : Store
  ttl : String → Option Nat

/-- Redis `SETEX key seconds value`: like `SET` with an expiration. -/
def WebStore.setex (w : WebStore) (k : String) (secs : Nat) (v : String) :
    WebStore :=
  ⟨w.base.set k v, fun x => if x = k then some secs else w.ttl x⟩

/-- Redis `INCR` lifted to the web store (expirations untouched). -/
def WebStore.incr (w : WebStore) (k : String) : WebStore × Except PyErr Int :=
  match w.base.incr k with
  | (st, .error e) => (⟨st, w.ttl⟩, .error e)
  | (st, .ok n) => (⟨st, w.ttl⟩, .ok n)

/-- A function in `web.py` taking a URL: state passing over `WebStore`,
returning also the list of URLs fetched over the network during the
call (the external HTTP client is an oracle `net`). -/
def WebMethod := String → WebStore → WebStore × Except PyErr String × List String

/-- Counter key written by `count_access` (line 22 of `web.py`). -/
def countAccessKey (url : String) : String := "count:" ++ url

/-- Cache key used by `get_page` (line 39 of `web.py`). -/
def cacheKey (url : String) : String := "cache:" ++ url

/-- Python truthiness of `bytes or None`: `None` and the empty byte
string are falsy. -/
def pyTruthyBytes : Option String → Bool
  | none => false
  | some s => s ≠ ""

/-- Decorator `count_access`: increment the counter under
`count:{url}` (brace here denoting Python interpolation of the URL),
then delegate. -/
def count_access (m : WebMethod) : WebMethod :=
  fun url w =>
    match w.incr (countAccessKey url) with
    | (w1, .error e) => (w1, .error e, [])
    | (w1, .ok _) => m url w1

/-- Body of `get_page`: read the cached content; if it is truthy
(present and nonempty) return it decoded without touching the network;
otherwise fetch the page, cache it with a 10-second expiration, and
return it.  `net` is the HTTP client oracle; the returned list records
the network fetches performed. -/
def get_page_body (net : String → String) : WebMethod :=
  fun url w =>
    let cached_content := w.base.get (cacheKey url)
    if pyTruthyBytes cached_content then
      (w, .ok (cached_content.getD ""), [])
    else
      let content := net url
      (w.setex (cacheKey url) 10 content, .ok content, [url])

/-- The decorated `get_page`: `@count_access` over the body. -/
def get_page (net : String → String) : WebMethod :=
  count_access (get_page_body net)

end RedisWeb

namespace RedisBasic

theorem kv_set_self (st : Store) (k v : String) : (st.set k v).kv k = some v := by
  simp [Store.set]

theorem kv_set_ne (st : Store) {x k : String} (v : String) (h : x ≠ k) :
    (st.set k v).kv x = st.kv x := by
  simp [Store.set, h]

theorem lists_set (st : Store) (k v : String) :
    (st.set k v).lists = st.lists := rfl

theorem kv_rpush (st : Store) (k v : String) :
    (st.rpush k v).kv = st.kv := rfl

theorem lists_rpush_self (st : Store) (k v : String) :
    (st.rpush k v).lists k = st.lists k ++ [v] := by
  simp [Store.rpush]

theorem lists_rpush_ne (st : Store) {x k : String} (v : String) (h : x ≠ k) :
    (st.rpush k v).lists x = st.lists x := by
  simp [Store.rpush, h]

theorem append_ne_of_data_ne {a b : String} (qn : String)
    (h : a.data ≠ b.data) : qn ++ a ≠ qn ++ b := by
  intro he
  have hd := congrArg String.data he
  simp only [String.data_append] at hd
  exact h (List.append_cancel_left hd)

theorem inKey_ne_outKey (qn : String) :
    callHistoryInputsKey qn ≠ callHistoryOutputsKey qn := by
  exact append_ne_of_data_ne qn (by decide)

theorem lists_incr (st : Store) (k : String) :
    (st.incr k).1.lists = st.lists := by
  rw [Store.incr]
  rcases hk : st.kv k with _ | s
  · rfl
  · rcases hp : redisParseInt s.data with _ | n <;> simp [hp, Store.set]

theorem incr_counterOK {st : Store} {k : String} (h : counterOK st k) :
    st.incr k =
      (st.set k (intRepr (counterVal st k + 1)), .ok (counterVal st k + 1)) := by
  rw [Store.incr]
  rcases hk : st.kv k with _ | s
  · simp [counterVal, hk]
  · have := h s hk
    rcases hp : redisParseInt s.data with _ | n
    · rw [hp] at this; simp at this
    · simp [counterVal, hk, hp]

theorem afterPre_kv_counter {α : Type} {st : Store} (qn : String)
    (serIn : α → String) (a : α) (h : counterOK st (countCallsKey qn)) :
    (afterPre qn serIn a st).kv (countCallsKey qn) =
      some (intRepr (counterVal st (countCallsKey qn) + 1)) := by
  rw [afterPre, incr_counterOK h, kv_rpush, kv_set_self]

theorem afterPre_inputs {α : Type} {st : Store} (qn : String)
    (serIn : α → String) (a : α) :
    (afterPre qn serIn a st).lists (callHistoryInputsKey qn) =
      st.lists (callHistoryInputsKey qn) ++ [serIn a] := by
  rw [afterPre, lists_rpush_self, lists_incr]

theorem afterPre_outputs {α : Type} {st : Store} (qn : String)
    (serIn : α → String) (a : α) :
    (afterPre qn serIn a st).lists (callHistoryOutputsKey qn) =
      st.lists (callHistoryOutputsKey qn) := by
  rw [afterPre, lists_rpush_ne _ _ (fun he => inKey_ne_outKey qn he.symm),
    lists_incr]

theorem wrapped_eq {α β : Type} (qn : String) (serIn : α → String)
    (serOut : β → String) (m : Method α β) (a : α) (st : Store)
    (h : counterOK st (countCallsKey qn)) :
    count_calls qn (call_history qn serIn serOut m) a st =
      (match m a (afterPre qn serIn a st) with
       | (st2, .error e) => (st2, .error e)
       | (st2, .ok b) =>
         (st2.rpush (callHistoryOutputsKey qn) (serOut b), .ok b)) := by
  rw [count_calls, afterPre, incr_counterOK h]
  rfl

theorem wrapped_error {α β : Type} {qn : String} {serIn : α → String}
    {serOut : β → String} {m : Method α β} {a : α} {st st2 : Store} {e : PyErr}
    (h : counterOK st (countCallsKey qn))
    (hfail : m a (afterPre qn serIn a st) = (st2, .error e)) :
    count_calls qn (call_history qn serIn serOut m) a st = (st2, .error e) := by
  rw [wrapped_eq qn serIn serOut m a st h, hfail]

theorem wrapped_ok {α β : Type} {qn : String} {serIn : α → String}
    {serOut : β → String} {m : Method α β} {a : α} {st st2 : Store} {b : β}
    (h : counterOK st (countCallsKey qn))
    (hok : m a (afterPre qn serIn a st) = (st2, .ok b)) :
    count_calls qn (call_history qn serIn serOut m) a st =
      (st2.rpush (callHistoryOutputsKey qn) (serOut b), .ok b) := by
  rw [wrapped_eq qn serIn serOut m a st h, hok]

/-- C1: for every call to the instrumented `Cache.store` with any
supported argument, on a store whose counter is readable, the wrapped
operation returns exactly the value the unwrapped store body returns
for that call — the generated key — unchanged. -/
theorem C1_wrappers_transparent (u : String) (d : PyVal) (st : Store)
    (h : counterOK st storeQualname) :
    ∃ st', Cache.store u d st = (st', .ok u) ∧
      (Cache.storeBody u d st).2 = .ok u := by
  refine ⟨((afterPre storeQualname strArgs d st).set u (encodeVal d)).rpush
    (callHistoryOutputsKey storeQualname) (id u), ?_, rfl⟩
  exact wrapped_ok h rfl

theorem C1_wrappers_transparent_witness :
    counterOK Store.empty storeQualname ∧
      ∃ st', Cache.store "k1" (PyVal.pyint 7) Store.empty = (st', .ok "k1") ∧
        (Cache.storeBody "k1" (PyVal.pyint 7) Store.empty).2 = .ok "k1" := by
  have h : counterOK Store.empty storeQualname := fun s hs => Option.noConfusion hs
  exact ⟨h, C1_wrappers_transparent "k1" (PyVal.pyint 7) Store.empty h⟩

/-- C2: for every invocation of an operation wrapped with both
`count_calls` and `call_history`, the counter increment and the
inputs-history append are both already applied in the state the
original operation body receives, and the outputs-history append is
applied exactly when the body returns successfully, after it. -/
theorem C2_pre_effects_before_body {α β : Type} (qn : String)
    (serIn : α → String) (serOut : β → String) (m : Method α β) (a : α)
    (st : Store) (h : counterOK st (countCallsKey qn)) :
    (afterPre qn serIn a st).kv (countCallsKey qn) =
      some (intRepr (counterVal st (countCallsKey qn) + 1)) ∧
    (afterPre qn serIn a st).lists (callHistoryInputsKey qn) =
      st.lists (callHistoryInputsKey qn) ++ [serIn a] ∧
    (afterPre qn serIn a st).lists (callHistoryOutputsKey qn) =
      st.lists (callHistoryOutputsKey qn) ∧
    (∀ st2 e, m a (afterPre qn serIn a st) = (st2, .error e) →
      count_calls qn (call_history qn serIn serOut m) a st = (st2, .error e)) ∧
    (∀ st2 b, m a (afterPre qn serIn a st) = (st2, .ok b) →
      count_calls qn (call_history qn serIn serOut m) a st =
        (st2.rpush (callHistoryOutputsKey qn) (serOut b), .ok b)) := by
  exact ⟨afterPre_kv_counter qn serIn a h, afterPre_inputs qn serIn a,
    afterPre_outputs qn serIn a,
    fun st2 e hf => wrapped_error h hf,
    fun st2 b hb => wrapped_ok h hb⟩

theorem C2_pre_effects_before_body_witness :
    counterOK Store.empty (countCallsKey storeQualname) ∧
      ((afterPre storeQualname strArgs (PyVal.pystr "x") Store.empty).kv
          (countCallsKey storeQualname) =
        some (intRepr (counterVal Store.empty (countCallsKey storeQualname) + 1)) ∧
      (afterPre storeQualname strArgs (PyVal.pystr "x") Store.empty).lists
          (callHistoryInputsKey storeQualname) =
        Store.empty.lists (callHistoryInputsKey storeQualname) ++
          [strArgs (PyVal.pystr "x")] ∧
      (afterPre storeQualname strArgs (PyVal.pystr "x") Store.empty).lists
          (callHistoryOutputsKey storeQualname) =
        Store.empty.lists (callHistoryOutputsKey storeQualname) ∧
      (∀ st2 e, Cache.storeBody "k1" (PyVal.pystr "x")
          (afterPre storeQualname strArgs (PyVal.pystr "x") Store.empty) =
          (st2, .error e) →
        count_calls storeQualname
          (call_history storeQualname strArgs id (Cache.storeBody "k1"))
          (PyVal.pystr "x") Store.empty = (st2, .error e)) ∧
      (∀ st2 b, Cache.storeBody "k1" (PyVal.pystr "x")
          (afterPre storeQualname strArgs (PyVal.pystr "x") Store.empty) =
          (st2, .ok b) →
        count_calls storeQualname
          (call_history storeQualname strArgs id (Cache.storeBody "k1"))
          (PyVal.pystr "x") Store.empty =
          (st2.rpush (callHistoryOutputsKey storeQualname) (id b), .ok b))) := by
  have h : counterOK Store.empty (countCallsKey storeQualname) :=
    fun s hs => Option.noConfusion hs
  exact ⟨h, C2_pre_effects_before_body storeQualname strArgs id
    (Cache.storeBody "k1") (PyVal.pystr "x") Store.empty h⟩

/-- C3: when the original operation body raises inside the instrumented
call, the counter increment and the inputs-history append already
performed are kept, the outputs-history append is skipped, the
exception propagates to the caller unchanged, and the inputs history
ends up strictly longer than the outputs history (given they were
balanced before and the body itself does not touch the instrumentation
keys, as the store body does not). -/
theorem C3_failure_keeps_pre_effects {α β : Type} (qn : String)
    (serIn : α → String) (serOut : β → String) (m : Method α β) (a : α)
    (st stF : Store) (e : PyErr)
    (h : counterOK st (countCallsKey qn))
    (hfail : m a (afterPre qn serIn a st) = (stF, .error e))
    (hkv : stF.kv (countCallsKey qn) =
      (afterPre qn serIn a st).kv (countCallsKey qn))
    (hin : stF.lists (callHistoryInputsKey qn) =
      (afterPre qn serIn a st).lists (callHistoryInputsKey qn))
    (hout : stF.lists (callHistoryOutputsKey qn) =
      (afterPre qn serIn a st).lists (callHistoryOutputsKey qn))
    (hbal : (st.lists (callHistoryInputsKey qn)).length =
      (st.lists (callHistoryOutputsKey qn)).length) :
    count_calls qn (call_history qn serIn serOut m) a st = (stF, .error e) ∧
    stF.kv (countCallsKey qn) =
      some (intRepr (counterVal st (countCallsKey qn) + 1)) ∧
    stF.lists (callHistoryInputsKey qn) =
      st.lists (callHistoryInputsKey qn) ++ [serIn a] ∧
    stF.lists (callHistoryOutputsKey qn) =
      st.lists (callHistoryOutputsKey qn) ∧
    (stF.lists (callHistoryOutputsKey qn)).length <
      (stF.lists (callHistoryInputsKey qn)).length := by
  refine ⟨wrapped_error h hfail, ?_, ?_, ?_, ?_⟩
  · rw [hkv]; exact afterPre_kv_counter qn serIn a h
  · rw [hin]; exact afterPre_inputs qn serIn a
  · rw [hout]; exact afterPre_outputs qn serIn a
  · rw [hin, hout, afterPre_inputs qn serIn a, afterPre_outputs qn serIn a]
    simp [hbal]

theorem C3_failure_keeps_pre_effects_witness :
    counterOK Store.empty (countCallsKey "Cache.store") ∧
      ((afterPre "Cache.store" (fun _ : Unit => "()") () Store.empty).lists
          (callHistoryOutputsKey "Cache.store")).length <
        ((afterPre "Cache.store" (fun _ : Unit => "()") () Store.empty).lists
          (callHistoryInputsKey "Cache.store")).length := by
  have h : counterOK Store.empty (countCallsKey "Cache.store") :=
    fun s hs => Option.noConfusion hs
  refine ⟨h, ?_⟩
  have := C3_failure_keeps_pre_effects "Cache.store"
    (fun _ : Unit => "()") (fun _ : Unit => "()")
    (fun _ st => (st, .error (PyErr.valueError "boom"))) () Store.empty
    (afterPre "Cache.store" (fun _ : Unit => "()") () Store.empty)
    (PyErr.valueError "boom") h rfl rfl rfl rfl rfl
  exact this.2.2.2.2

/-- Invariant of the repository state after `k` successful instrumented
`store` calls: counter value `k`, readable counter, and both history
lists of length `k`. -/
def storeInv (st : Store) (k : Nat) : Prop :=
  counterVal st storeQualname = k ∧
  counterOK st storeQualname ∧
  (st.lists (callHistoryInputsKey storeQualname)).length = k ∧
  (st.lists (callHistoryOutputsKey storeQualname)).length = k

theorem storeInv_init (st0 : Store) : storeInv (Cache.init st0) 0 := by
  refine ⟨rfl, fun s hs => Option.noConfusion hs, rfl, rfl⟩

theorem counterOK_of_intRepr {st : Store} {k : String} {i : Int}
    (h : st.kv k = some (intRepr i)) : counterOK st k := by
  intro s hs
  rw [h] at hs
  cases hs
  rw [redisParseInt_intRepr]
  rfl

theorem store_step {st : Store} {k : Nat} (u : String) (d : PyVal)
    (hu : u ≠ storeQualname) (hinv : storeInv st k) :
    (Cache.store u d st).2 = .ok u ∧ storeInv (Cache.store u d st).1 (k + 1) := by
  obtain ⟨hcnt, hok, hin, hout⟩ := hinv
  have hstep :
      Cache.store u d st =
        (((afterPre storeQualname strArgs d st).set u (encodeVal d)).rpush
          (callHistoryOutputsKey storeQualname) (id u), .ok u) :=
    wrapped_ok hok rfl
  have hkvq :
      (((afterPre storeQualname strArgs d st).set u (encodeVal d)).rpush
          (callHistoryOutputsKey storeQualname) (id u)).kv storeQualname =
        some (intRepr ((k : Int) + 1)) := by
    rw [kv_rpush, kv_set_ne _ _ (Ne.symm hu)]
    have h2 := afterPre_kv_counter storeQualname strArgs d hok
    simp only [countCallsKey] at h2
    rw [h2, hcnt]
  refine ⟨by rw [hstep], ?_⟩
  rw [hstep]
  show storeInv (((afterPre storeQualname strArgs d st).set u
    (encodeVal d)).rpush (callHistoryOutputsKey storeQualname) (id u)) (k + 1)
  refine ⟨?_, counterOK_of_intRepr hkvq, ?_, ?_⟩
  · show counterVal _ storeQualname = ((k + 1 : Nat) : Int)
    rw [counterVal, hkvq]
    show (redisParseInt (intRepr ((k : Int) + 1)).data).getD 0 =
      ((k + 1 : Nat) : Int)
    rw [redisParseInt_intRepr]
    show (k : Int) + 1 = ((k + 1 : Nat) : Int)
    omega
  · rw [lists_rpush_ne _ _ (inKey_ne_outKey storeQualname), lists_set,
      afterPre_inputs storeQualname strArgs d]
    simp [hin]
  · rw [lists_rpush_self, lists_set, afterPre_outputs storeQualname strArgs d]
    simp [hout]

theorem runStores_inv (calls : List (String × PyVal)) :
    ∀ (st : Store) (k : Nat), storeInv st k →
      (∀ p ∈ calls, p.1 ≠ storeQualname) →
      storeInv (runStores calls st) (k + calls.length) := by
  induction calls with
  | nil => intro st k hinv _; simpa using hinv
  | cons p rest ih =>
    intro st k hinv h
    obtain ⟨u, d⟩ := p
    have hu : u ≠ storeQualname := h (u, d) (List.mem_cons_self _ _)
    have hstep := store_step u d hu hinv
    have := ih (Cache.store u d st).1 (k + 1) hstep.2
      (fun q hq => h q (List.mem_cons_of_mem _ hq))
    rw [runStores]
    have hk2 : k + ((u, d) :: rest).length = (k + 1) + rest.length := by
      simp [List.length_cons]
      omega
    rw [hk2]
    exact this

/-- C4: starting from a freshly constructed `Cache` (whose construction
flushes the store), after any sequence of `N` calls to the instrumented
`store` with fresh keys, every call succeeds, the call counter for
`store` equals `N`, the inputs and outputs history lists each have
length `N`, and the two lists have equal length after every prefix of
the sequence. -/
theorem C4_counter_matches_call_count (st0 : Store)
    (calls : List (String × PyVal))
    (h : ∀ p ∈ calls, p.1 ≠ storeQualname) :
    counterVal (runStores calls (Cache.init st0)) storeQualname =
      calls.length ∧
    ((runStores calls (Cache.init st0)).lists
        (callHistoryInputsKey storeQualname)).length = calls.length ∧
    ((runStores calls (Cache.init st0)).lists
        (callHistoryOutputsKey storeQualname)).length = calls.length ∧
    (∀ pre suff, calls = pre ++ suff →
      ((runStores pre (Cache.init st0)).lists
          (callHistoryInputsKey storeQualname)).length =
        ((runStores pre (Cache.init st0)).lists
          (callHistoryOutputsKey storeQualname)).length) ∧
    (∀ pre u d suff, calls = pre ++ (u, d) :: suff →
      (Cache.store u d (runStores pre (Cache.init st0))).2 = .ok u) := by
  have hmain := runStores_inv calls (Cache.init st0) 0 (storeInv_init st0) h
  simp only [Nat.zero_add] at hmain
  have hpreInv : ∀ pre suff, calls = pre ++ suff →
      storeInv (runStores pre (Cache.init st0)) pre.length := by
    intro pre suff hps
    have hpre : ∀ p ∈ pre, p.1 ≠ storeQualname := by
      intro p hp
      exact h p (hps ▸ List.mem_append_left _ hp)
    have := runStores_inv pre (Cache.init st0) 0 (storeInv_init st0) hpre
    simpa using this
  refine ⟨hmain.1, hmain.2.2.1, hmain.2.2.2, ?_, ?_⟩
  · intro pre suff hps
    have hi := hpreInv pre suff hps
    rw [hi.2.2.1, hi.2.2.2]
  · intro pre u d suff hps
    have hi := hpreInv pre ((u, d) :: suff) hps
    have hu : u ≠ storeQualname :=
      h (u, d) (hps ▸ List.mem_append_right _ (List.mem_cons_self _ _))
    exact (store_step u d hu hi).1

theorem C4_counter_matches_call_count_witness :
    (∀ p ∈ [("u1", PyVal.pybytes "hello"), ("u2", PyVal.pyint 5)],
      p.1 ≠ storeQualname) ∧
    counterVal (runStores [("u1", PyVal.pybytes "hello"),
        ("u2", PyVal.pyint 5)] (Cache.init Store.empty)) storeQualname =
      (["a", "b"] : List String).length ∧ True := by
  have h : ∀ p ∈ [("u1", PyVal.pybytes "hello"), ("u2", PyVal.pyint 5)],
      p.1 ≠ storeQualname := by
    intro p hp
    simp only [List.mem_cons, List.not_mem_nil, or_false] at hp
    rcases hp with hp | hp <;> (subst hp; decide)
  refine ⟨h, ?_, trivial⟩
  have := C4_counter_matches_call_count Store.empty
    [("u1", PyVal.pybytes "hello"), ("u2", PyVal.pyint 5)] h
  exact this.1

theorem lrange_all (st : Store) (k : String) :
    st.lrange k 0 (-1) = st.lists k := by
  rw [Store.lrange]
  rcases hl : st.lists k with _ | ⟨c, cs⟩
  · norm_num
  · have h1 : (0 : Int) ≤ ((c :: cs).length : Int) + -1 := by
      simp only [List.length_cons]
      push_cast
      omega
    have ht : (((c :: cs).length : Int) + -1 - 0 + 1).toNat = (c :: cs).length := by
      simp only [List.length_cons]
      push_cast
      omega
    simp only [if_neg (lt_irrefl (0 : Int)),
      if_pos (show (-1 : Int) < 0 by omega), if_pos h1, ht]
    simp [List.take_length]

/-- Observation function for theorem statements: the call count as
`replay` reads it — absent or empty keys (falsy, via `or 0`) read as 0,
anything else parsed by Python `int`. -/
def replayCount (st : Store) (k : String) : Int :=
  match st.kv k with
  | none => 0
  | some s => if s = "" then 0 else (pyIntParse s).getD 0

/-- C5: for every store state with a readable counter, `replay` treats
an absent counter as 0, pairs the recorded inputs and outputs
positionally up to exactly the length of the shorter list, renders a
call count of 0 and no entry lines when no history exists, and performs
no writes to the store. -/
theorem C5_replay_renders_history (st : Store) (qn : String)
    (h : replayCounterOK st (replayCounterKey qn)) :
    replay st qn =
      (st, .ok (qn ++ " was called " ++
          intRepr (replayCount st (replayCounterKey qn)) ++ " times:",
        (List.zip (st.lists (replayInputsKey qn))
            (st.lists (replayOutputsKey qn))).map
          (fun p => qn ++ "(*" ++ p.1 ++ ") -> " ++ p.2))) ∧
    ((List.zip (st.lists (replayInputsKey qn))
        (st.lists (replayOutputsKey qn))).map
      (fun p => qn ++ "(*" ++ p.1 ++ ") -> " ++ p.2)).length =
      min (st.lists (replayInputsKey qn)).length
        (st.lists (replayOutputsKey qn)).length ∧
    (st.kv (replayCounterKey qn) = none →
      replayCount st (replayCounterKey qn) = 0) ∧
    (st.kv (replayCounterKey qn) = none ∧
        st.lists (replayInputsKey qn) = [] ∧
        st.lists (replayOutputsKey qn) = [] →
      replayCount st (replayCounterKey qn) = 0 ∧
      (List.zip (st.lists (replayInputsKey qn))
          (st.lists (replayOutputsKey qn))).map
        (fun p => qn ++ "(*" ++ p.1 ++ ") -> " ++ p.2) = []) := by
  refine ⟨?_, ?_, ?_, ?_⟩
  · rw [replay]
    rcases hk : st.get (replayCounterKey qn) with _ | s
    · have hkv : st.kv (replayCounterKey qn) = none := hk
      simp only [hkv, replayCount, lrange_all]
    · have hkv : st.kv (replayCounterKey qn) = some s := hk
      by_cases hs : s = ""
      · subst hs
        simp [hkv, replayCount, lrange_all]
      · rcases hp : pyIntParse s with _ | n
        · rcases h s hkv with he | hsome
          · exact absurd he hs
          · rw [hp] at hsome
            exact absurd hsome (by simp)
        · simp only [hkv, replayCount, lrange_all, if_neg hs, hp]
          rfl
  · rw [List.length_map, List.length_zip]
  · intro hk
    rw [replayCount, hk]
  · rintro ⟨hk, hi, ho⟩
    refine ⟨by rw [replayCount, hk], by rw [hi, ho]; rfl⟩

theorem C5_replay_renders_history_witness :
    replayCounterOK Store.empty (replayCounterKey "Cache.store") ∧
      (replay Store.empty "Cache.store" =
        (Store.empty, .ok ("Cache.store" ++ " was called " ++
            intRepr (replayCount Store.empty
              (replayCounterKey "Cache.store")) ++ " times:",
          (List.zip (Store.empty.lists (replayInputsKey "Cache.store"))
              (Store.empty.lists (replayOutputsKey "Cache.store"))).map
            (fun p => "Cache.store" ++ "(*" ++ p.1 ++ ") -> " ++ p.2))) ∧
      ((List.zip (Store.empty.lists (replayInputsKey "Cache.store"))
          (Store.empty.lists (replayOutputsKey "Cache.store"))).map
        (fun p => "Cache.store" ++ "(*" ++ p.1 ++ ") -> " ++ p.2)).length =
        min (Store.empty.lists (replayInputsKey "Cache.store")).length
          (Store.empty.lists (replayOutputsKey "Cache.store")).length ∧
      (Store.empty.kv (replayCounterKey "Cache.store") = none →
        replayCount Store.empty (replayCounterKey "Cache.store") = 0) ∧
      (Store.empty.kv (replayCounterKey "Cache.store") = none ∧
          Store.empty.lists (replayInputsKey "Cache.store") = [] ∧
          Store.empty.lists (replayOutputsKey "Cache.store") = [] →
        replayCount Store.empty (replayCounterKey "Cache.store") = 0 ∧
        (List.zip (Store.empty.lists (replayInputsKey "Cache.store"))
            (Store.empty.lists (replayOutputsKey "Cache.store"))).map
          (fun p => "Cache.store" ++ "(*" ++ p.1 ++ ") -> " ++ p.2) = [])) := by
  have h : replayCounterOK Store.empty (replayCounterKey "Cache.store") :=
    fun s hs => Option.noConfusion hs
  exact ⟨h, C5_replay_renders_history Store.empty "Cache.store" h⟩

theorem not_space_of_digit_range {c : Char} (h48 : 48 ≤ c.toNat)
    (h57 : c.toNat ≤ 57) : isPySpace c = false := by
  simp only [isPySpace, Bool.or_eq_false_iff, decide_eq_false_iff_not]
  omega

theorem dropWhile_eq_self_of_all {p : Char → Bool} {l : List Char}
    (h : ∀ c ∈ l, p c = false) : l.dropWhile p = l := by
  cases l with
  | nil => rfl
  | cons a as =>
    rw [List.dropWhile_cons, h a (List.mem_cons_self _ _)]
    simp

theorem pyStrip_eq_self {l : List Char}
    (h : ∀ c ∈ l, isPySpace c = false) : pyStrip l = l := by
  rw [pyStrip, dropWhile_eq_self_of_all h,
    dropWhile_eq_self_of_all (fun c hc => h c (List.mem_reverse.mp hc)),
    List.reverse_reverse]

theorem intRepr_chars_not_space {i : Int} {c : Char}
    (hc : c ∈ (intRepr i).data) : isPySpace c = false := by
  rw [intRepr] at hc
  by_cases h : i < 0
  · rw [if_pos h] at hc
    simp only [List.mem_cons] at hc
    rcases hc with hc | hc
    · subst hc; decide
    · obtain ⟨h1, h2⟩ := natDigits_mem_range hc
      exact not_space_of_digit_range h1 h2
  · rw [if_neg h] at hc
    obtain ⟨h1, h2⟩ := natDigits_mem_range hc
    exact not_space_of_digit_range h1 h2

theorem pyIntParseChars_natDigits (n : Nat) :
    pyIntParseChars (natDigits n) = some (n : Int) := by
  rcases hl : natDigits n with _ | ⟨c, cs⟩
  · exact absurd hl (natDigits_ne_nil n)
  · have hr : 48 ≤ c.toNat ∧ c.toNat ≤ 57 :=
      natDigits_mem_range (hl ▸ List.mem_cons_self _ _)
    have hminus : ¬ c = '-' := fun he => by
      subst he; exact absurd hr (by decide)
    have hplus : ¬ c = '+' := fun he => by
      subst he; exact absurd hr (by decide)
    rw [pyIntParseChars, if_neg hminus, if_neg hplus, ← hl, parseNat_natDigits]
    rfl

theorem pyIntParse_intRepr (i : Int) : pyIntParse (intRepr i) = some i := by
  rw [pyIntParse, pyStrip_eq_self (fun c hc => intRepr_chars_not_space hc)]
  rw [intRepr]
  by_cases h : i < 0
  · rw [if_pos h]
    show pyIntParseChars ('-' :: natDigits i.natAbs) = some i
    rw [pyIntParseChars, if_pos rfl, parseNat_natDigits]
    show some (-(i.natAbs : Int)) = some i
    congr 1
    omega
  · rw [if_neg h]
    show pyIntParseChars (natDigits i.natAbs) = some i
    rw [pyIntParseChars_natDigits]
    congr 1
    omega

/-- C6 counterexample: storing the text value `bar` and retrieving its
key with no converter yields the raw byte string `bar`, not the text
value — the plain round trip returns the serialized bytes, not the
stored value unchanged, for non-binary kinds. -/
theorem C6_plain_roundtrip_cex :
    (Cache.get (Cache.store "u1" (PyVal.pystr "bar")
        (Cache.init Store.empty)).1 "u1" none).2 =
      .ok (some (PyVal.pybytes "bar")) ∧
    (Cache.get (Cache.store "u1" (PyVal.pystr "bar")
        (Cache.init Store.empty)).1 "u1" none).2 ≠
      .ok (some (PyVal.pystr "bar")) := by
  have h : (Cache.get (Cache.store "u1" (PyVal.pystr "bar")
      (Cache.init Store.empty)).1 "u1" none).2 =
      .ok (some (PyVal.pybytes "bar")) := rfl
  refine ⟨h, ?_⟩
  rw [h]
  intro he
  simp at he

/-- C6 (amended): the plain `get` round trip returns the stored value
unchanged only for binary values; in general it returns the byte
serialization of the stored value; text and integer values are
recovered exactly by `get_str` and `get_int` respectively. -/
theorem C6_roundtrip_by_kind (st : Store) (u : String)
    (h : counterOK st storeQualname) :
    (∀ b : String, (Cache.get (Cache.store u (PyVal.pybytes b) st).1
      u none).2 = .ok (some (PyVal.pybytes b))) ∧
    (∀ v : PyVal, (Cache.get (Cache.store u v st).1 u none).2 =
      .ok (some (PyVal.pybytes (encodeVal v)))) ∧
    (∀ s : String, (Cache.get_str (Cache.store u (PyVal.pystr s) st).1
      u).2 = .ok (some (PyVal.pystr s))) ∧
    (∀ n : Int, (Cache.get_int (Cache.store u (PyVal.pyint n) st).1
      u).2 = .ok (some (PyVal.pyint n))) := by
  have hkv : ∀ v : PyVal, (Cache.store u v st).1.kv u = some (encodeVal v) := by
    intro v
    have hstep :
        Cache.store u v st =
          (((afterPre storeQualname strArgs v st).set u (encodeVal v)).rpush
            (callHistoryOutputsKey storeQualname) (id u), .ok u) :=
      wrapped_ok h rfl
    rw [hstep, kv_rpush, kv_set_self]
  refine ⟨?_, ?_, ?_, ?_⟩
  · intro b
    simp [Cache.get, Store.get, hkv (PyVal.pybytes b), encodeVal]
  · intro v
    simp [Cache.get, Store.get, hkv v]
  · intro s
    simp [Cache.get_str, Cache.get, Store.get, hkv (PyVal.pystr s),
      encodeVal, decodeUtf8]
  · intro n
    simp [Cache.get_int, Cache.get, Store.get, hkv (PyVal.pyint n),
      encodeVal, pyIntFn, pyIntParse_intRepr]

theorem C6_roundtrip_by_kind_witness :
    counterOK Store.empty storeQualname ∧
      (Cache.get_int (Cache.store "u1" (PyVal.pyint 123)
        (Cache.init Store.empty)).1 "u1").2 = .ok (some (PyVal.pyint 123)) := by
  have h : counterOK Store.empty storeQualname :=
    fun s hs => Option.noConfusion hs
  exact ⟨h, (C6_roundtrip_by_kind (Cache.init Store.empty) "u1" h).2.2.2 123⟩

/-- C7: retrieving a key never written, with or without a converter,
returns the explicit absent result `None` — not an error and not a
default value — and leaves the store unchanged. -/
theorem C7_missing_key_returns_none (st : Store) (key : String)
    (h : st.kv key = none) (fn : Option (String → Except PyErr PyVal)) :
    Cache.get st key fn = (st, .ok none) := by
  simp [Cache.get, Store.get, h]

theorem C7_missing_key_returns_none_witness :
    Store.empty.kv "missing" = none ∧
      Cache.get Store.empty "missing" (some pyIntFn) = (Store.empty, .ok none) :=
  ⟨rfl, C7_missing_key_returns_none Store.empty "missing" rfl (some pyIntFn)⟩

/-- C8: when the stored raw bytes of a key do not parse as an integer,
`get_int` on that key surfaces the conversion error to the caller
rather than swallowing it or returning a substitute value. -/
theorem C8_get_int_surfaces_error (st : Store) (key s : String)
    (h1 : st.kv key = some s) (h2 : pyIntParse s = none) :
    Cache.get_int st key =
      (st, .error (.valueError "invalid literal for int with base 10")) := by
  simp [Cache.get_int, Cache.get, Store.get, h1, pyIntFn, h2]

theorem C8_get_int_surfaces_error_witness :
    (Store.empty.set "k" "abc").kv "k" = some "abc" ∧
      pyIntParse "abc" = none ∧
      Cache.get_int (Store.empty.set "k" "abc") "k" =
        (Store.empty.set "k" "abc",
          .error (.valueError "invalid literal for int with base 10")) := by
  have h1 : (Store.empty.set "k" "abc").kv "k" = some "abc" := by
    simp [Store.set, Store.empty]
  have h2 : pyIntParse "abc" = none := by decide
  exact ⟨h1, h2, C8_get_int_surfaces_error (Store.empty.set "k" "abc") "k" "abc" h1 h2⟩

/-- C10: the counter key written by `count_calls` and the inputs and
outputs keys written by `call_history` coincide, for every wrapped
method, with the keys `replay` reads: the qualified name of the method,
and that name suffixed with `:inputs` and `:outputs` — so the key
derivation of the wrappers and of the reporter agree for every method. -/
theorem C10_key_derivations_agree (qn : String) :
    countCallsKey qn = replayCounterKey qn ∧
    callHistoryInputsKey qn = replayInputsKey qn ∧
    callHistoryOutputsKey qn = replayOutputsKey qn :=
  ⟨rfl, rfl, rfl⟩

end RedisBasic

namespace RedisWeb

open RedisBasic

theorem countKey_ne_cacheKey (url : String) :
    countAccessKey url ≠ cacheKey url := by
  intro he
  have hd := congrArg String.data he
  simp only [countAccessKey, cacheKey, String.data_append] at hd
  have hl : ("count:").data.length = ("cache:").data.length := by decide
  have := (List.append_inj hd hl).1
  exact absurd this (by decide)

theorem webIncr_counterOK {w : WebStore} {k : String}
    (h : counterOK w.base k) :
    w.incr k = (⟨w.base.set k (intRepr (counterVal w.base k + 1)), w.ttl⟩,
      .ok (counterVal w.base k + 1)) := by
  unfold WebStore.incr
  rw [incr_counterOK h]

/-- C9 counterexample: with the empty byte string cached for a URL —
cached content present — `get_page` nevertheless performs a network
fetch (Python truthiness treats empty bytes as a cache miss) and
returns the fetched content instead of the cached one. -/
theorem C9_cached_empty_fetches_cex :
    (WebStore.mk (Store.empty.set "cache:u" "") (fun _ => none)).base.kv
        (cacheKey "u") = some "" ∧
    (get_page (fun _ => "PAGE") "u"
        (WebStore.mk (Store.empty.set "cache:u" "") (fun _ => none))).2.2 =
      ["u"] ∧
    (get_page (fun _ => "PAGE") "u"
        (WebStore.mk (Store.empty.set "cache:u" "") (fun _ => none))).2.1 =
      .ok "PAGE" := by
  refine ⟨?_, rfl, rfl⟩
  show (Store.empty.set "cache:u" "").kv ("cache:" ++ "u") = some ""
  rfl

/-- C9 (amended): each `get_page` call increments the access counter at
`count:` followed by the URL; when nonempty cached content is present
it is returned without a network fetch and without touching the cache
entry or its expiration; when the cache entry is absent — or holds the
empty byte string, which the code treats as a miss — the page is
fetched over the network, cached with a fixed 10-second expiration,
and the fetched content is returned. -/
theorem C9_get_page_behavior (net : String → String) (url : String)
    (w : WebStore) (h : counterOK w.base (countAccessKey url)) :
    (∀ c, w.base.kv (cacheKey url) = some c → c ≠ "" →
      ∃ w', get_page net url w = (w', .ok c, []) ∧
        w'.base.kv (cacheKey url) = w.base.kv (cacheKey url) ∧
        w'.ttl (cacheKey url) = w.ttl (cacheKey url) ∧
        counterVal w'.base (countAccessKey url) =
          counterVal w.base (countAccessKey url) + 1) ∧
    ((w.base.kv (cacheKey url) = none ∨ w.base.kv (cacheKey url) = some "") →
      ∃ w', get_page net url w = (w', .ok (net url), [url]) ∧
        w'.base.kv (cacheKey url) = some (net url) ∧
        w'.ttl (cacheKey url) = some 10 ∧
        counterVal w'.base (countAccessKey url) =
          counterVal w.base (countAccessKey url) + 1) := by
  have hne : cacheKey url ≠ countAccessKey url :=
    Ne.symm (countKey_ne_cacheKey url)
  have hg : get_page net url w =
      get_page_body net url
        ⟨w.base.set (countAccessKey url)
          (intRepr (counterVal w.base (countAccessKey url) + 1)), w.ttl⟩ := by
    rw [get_page, count_access, webIncr_counterOK h]
  have hcached :
      (⟨w.base.set (countAccessKey url)
          (intRepr (counterVal w.base (countAccessKey url) + 1)),
        w.ttl⟩ : WebStore).base.get (cacheKey url) =
        w.base.kv (cacheKey url) := by
    show (w.base.set (countAccessKey url) _).kv (cacheKey url) = _
    rw [kv_set_ne _ _ hne]
  have hcnt1 : (w.base.set (countAccessKey url)
      (intRepr (counterVal w.base (countAccessKey url) + 1))).kv
        (countAccessKey url) =
      some (intRepr (counterVal w.base (countAccessKey url) + 1)) :=
    kv_set_self _ _ _
  constructor
  · intro c hc hcne
    refine ⟨⟨w.base.set (countAccessKey url)
        (intRepr (counterVal w.base (countAccessKey url) + 1)), w.ttl⟩,
      ?_, ?_, ?_, ?_⟩
    · rw [hg, get_page_body]
      simp only [hcached, hc, pyTruthyBytes, Option.getD_some]
      rw [if_pos (by simp [hcne])]
    · show (w.base.set (countAccessKey url) _).kv (cacheKey url) = _
      rw [kv_set_ne _ _ hne]
    · rfl
    · show counterVal (w.base.set (countAccessKey url) _)
        (countAccessKey url) = _
      rw [counterVal, hcnt1]
      show (redisParseInt (intRepr
        (counterVal w.base (countAccessKey url) + 1)).data).getD 0 = _
      rw [redisParseInt_intRepr]
      rfl
  · intro hc
    have hfalse : pyTruthyBytes (w.base.kv (cacheKey url)) = false := by
      rcases hc with hc | hc <;> simp [hc, pyTruthyBytes]
    refine ⟨WebStore.setex ⟨w.base.set (countAccessKey url)
        (intRepr (counterVal w.base (countAccessKey url) + 1)), w.ttl⟩
        (cacheKey url) 10 (net url),
      ?_, ?_, ?_, ?_⟩
    · rw [hg, get_page_body]
      simp only [hcached, hfalse]
      rw [if_neg (by simp)]
    · show ((w.base.set (countAccessKey url) _).set (cacheKey url)
        (net url)).kv (cacheKey url) = _
      rw [kv_set_self]
    · show (if cacheKey url = cacheKey url then some 10 else _) = some 10
      rw [if_pos rfl]
    · show counterVal ((w.base.set (countAccessKey url) _).set (cacheKey url)
        (net url)) (countAccessKey url) = _
      rw [counterVal, kv_set_ne _ _ (countKey_ne_cacheKey url), hcnt1]
      show (redisParseInt (intRepr
        (counterVal w.base (countAccessKey url) + 1)).data).getD 0 = _
      rw [redisParseInt_intRepr]
      rfl

theorem C9_get_page_behavior_witness :
    counterOK (WebStore.mk Store.empty (fun _ => none)).base
        (countAccessKey "u") ∧
      ((WebStore.mk Store.empty (fun _ => none)).base.kv (cacheKey "u") =
          none ∨
        (WebStore.mk Store.empty (fun _ => none)).base.kv (cacheKey "u") =
          some "") ∧
      (∃ w', get_page (fun _ => "PAGE") "u"
          (WebStore.mk Store.empty (fun _ => none)) =
          (w', .ok ((fun _ => "PAGE") "u"), ["u"]) ∧
        w'.base.kv (cacheKey "u") = some ((fun _ => "PAGE") "u") ∧
        w'.ttl (cacheKey "u") = some 10 ∧
        counterVal w'.base (countAccessKey "u") =
          counterVal (WebStore.mk Store.empty (fun _ => none)).base
            (countAccessKey "u") + 1) := by
  have h : counterOK (WebStore.mk Store.empty (fun _ => none)).base
      (countAccessKey "u") := fun s hs => Option.noConfusion hs
  refine ⟨h, Or.inl rfl, ?_⟩
  exact (C9_get_page_behavior (fun _ => "PAGE") "u"
    (WebStore.mk Store.empty (fun _ => none)) h).2 (Or.inl rfl)

end RedisWeb
